import Mathlib

/-!
Verification of the rst-word-addin document conversion pipeline.

Shallow embedding of the TypeScript sources in `src/converter` and
`src/taskpane` (custom-directive grammar, grid-table renderer, caption
parser, list reconstruction, heading formatting, conversion entry point).
Strings are modelled as `List Char`; JavaScript `Array`/`Map` values as
Lean lists.  Each definition mirrors one source function and keeps its
name where Lean allows it.
-/

/-- Strings are modelled as lists of characters. -/
abbrev Str := List Char

/-- Convert a Lean string literal to the `List Char` model. -/
def strL (s : String) : Str := s.toList

/-- Whitespace characters recognised by JavaScript `trim` / `\s`
(common ASCII subset). -/
def isWsChar (c : Char) : Bool :=
  c = ' ' || c = '\n' || c = '\t' || c = '\r' || c = '\x0b' || c = '\x0c'

/-- JavaScript `String.prototype.trim`. -/
def trimStr (s : Str) : Str :=
  ((s.dropWhile isWsChar).reverse.dropWhile isWsChar).reverse

/-- JavaScript `String.prototype.split` with a single-character separator:
every occurrence splits, empty segments are kept, and the result is never
empty. -/
def splitCh (c : Char) : Str → List Str
  | [] => [[]]
  | x :: xs =>
    match splitCh c xs with
    | [] => [[]]
    | y :: ys => if x = c then [] :: y :: ys else (x :: y) :: ys

/-- JavaScript `Array.prototype.join` with a separator string. -/
def joinSep (sep : Str) : List Str → Str
  | [] => []
  | [x] => x
  | x :: y :: rest => x ++ sep ++ joinSep sep (y :: rest)

/-- Maximum of a list of naturals (0 for the empty list). -/
def natListMax : List Nat → Nat
  | [] => 0
  | x :: xs => max x (natListMax xs)

/-- JavaScript `String.prototype.startsWith` (second argument is the
candidate leading segment). -/
def strStarts : Str → Str → Bool
  | _, [] => true
  | [], _ :: _ => false
  | c :: h, d :: n => c == d && strStarts h n

/-- JavaScript `String.prototype.includes`. -/
def strContains : Str → Str → Bool
  | [], n => strStarts [] n
  | c :: t, n => strStarts (c :: t) n || strContains t n

/-- JavaScript `String.prototype.toLowerCase` (ASCII). -/
def lowerStr (s : Str) : Str := s.map Char.toLower

/-! ### Custom directive grammar (`src/converter/directives/custom.ts`) -/

/-- `CustomDirective` from `types.ts`: options are an insertion-ordered
key/value map (JavaScript `Map`). -/
structure CustomDirective where
  name : Str
  argument : Option Str
  options : List (Str × Str)
  content : Str
deriving DecidableEq, Repr

/-- Fixed three-space indentation used by the directive generators. -/
def INDENT : Str := strL "   "

/-- `isArgumentLine`: the line starts with `[` and ends with `]`. -/
def isArgumentLine (line : Str) : Bool :=
  line.head? == some '[' && line.getLast? == some ']'

/-- `extractArgument`: strip the surrounding brackets and trim. -/
def extractArgument (line : Str) : Str :=
  trimStr ((line.drop 1).dropLast)

/-- Characters matched by the regex class `[\w-]`. -/
def isWordDash (c : Char) : Bool :=
  c.isAlphanum || c = '_' || c = '-'

/-- `isOptionLine`: test of `^:[a-zA-Z][\w-]*:`. -/
def isOptionLine (line : Str) : Bool :=
  match line with
  | ':' :: c :: rest =>
    c.isAlpha &&
      (match rest.dropWhile isWordDash with
       | ':' :: _ => true
       | _ => false)
  | _ => false

/-- `parseOptionLine`: match of `^:([a-zA-Z][\w-]*):\s*(.*)$` with the
value trimmed. -/
def parseOptionLine (line : Str) : Option (Str × Str) :=
  match line with
  | ':' :: c :: rest =>
    if c.isAlpha then
      match rest.dropWhile isWordDash with
      | ':' :: after =>
        some (c :: rest.takeWhile isWordDash, trimStr (after.dropWhile isWsChar))
      | _ => none
    else none
  | _ => none

/-- JavaScript `Map.set`: update an existing key in place, otherwise
append at the end. -/
def mapSet (opts : List (Str × Str)) (k v : Str) : List (Str × Str) :=
  if opts.any (fun p => p.1 == k) then
    opts.map (fun p => if p.1 == k then (k, v) else p)
  else
    opts ++ [(k, v)]

/-- Loop state of `parseCustomDirective`. -/
structure DirectiveState where
  argument : Option Str
  options : List (Str × Str)
  bodyLines : List Str
  inBody : Bool
deriving Repr

/-- One iteration of the `parseCustomDirective` line loop. -/
def parseDirectiveLine (st : DirectiveState) (line : Str) : DirectiveState :=
  let trimmedLine := trimStr line
  if !st.inBody && trimmedLine == [] then
    st
  else if !st.inBody && st.argument.isNone && isArgumentLine trimmedLine then
    { st with argument := some (extractArgument trimmedLine) }
  else if !st.inBody && isOptionLine trimmedLine then
    match parseOptionLine trimmedLine with
    | some nv => { st with options := mapSet st.options nv.1 nv.2 }
    | none => st
  else
    { st with inBody := true, bodyLines := st.bodyLines ++ [line] }

/-- `trimBodyContent`: drop leading and trailing blank lines, join with
newlines. -/
def trimBodyContent (lines : List Str) : Str :=
  let l1 := lines.dropWhile (fun l => trimStr l == ([] : Str))
  let l2 := (l1.reverse.dropWhile (fun l => trimStr l == ([] : Str))).reverse
  joinSep ['\n'] l2

/-- `parseCustomDirective` from `custom.ts`: split the content into lines
and fold the argument/option/body state machine over them. -/
def parseCustomDirective (styleName content : Str) : CustomDirective :=
  let directiveName := styleName.drop 4
  let lines := splitCh '\n' content
  let st := lines.foldl parseDirectiveLine ⟨none, [], [], false⟩
  { name := directiveName
    argument := st.argument
    options := st.options
    content := trimBodyContent st.bodyLines }

/-- `generateCustomDirective` from `custom.ts`: declaration line, option
lines, then a blank line and the indented body (JavaScript truthiness:
an empty argument or value behaves like an absent one). -/
def generateCustomDirective (d : CustomDirective) : Str :=
  let decl :=
    match d.argument with
    | some a =>
      if a == ([] : Str) then strL ".. " ++ d.name ++ strL "::"
      else strL ".. " ++ d.name ++ strL ":: " ++ a
    | none => strL ".. " ++ d.name ++ strL "::"
  let optLines := d.options.map (fun p =>
    if p.2 == ([] : Str) then INDENT ++ ':' :: p.1 ++ [':']
    else INDENT ++ ':' :: p.1 ++ ':' :: ' ' :: p.2)
  let bodyLines :=
    if d.content == ([] : Str) then []
    else ([] : Str) :: (splitCh '\n' d.content).map (fun l =>
      if l == ([] : Str) then ([] : Str) else INDENT ++ l)
  joinSep ['\n'] (decl :: (optLines ++ bodyLines))

/-! ### Grid-table renderer (`src/converter/directives/custom.ts`, table half) -/

/-- Cell alignment values. -/
inductive CellAlign where
  | left
  | center
  | right
deriving DecidableEq, Repr

/-- `TableCell` from `types.ts` (colspan/rowspan are never read by the
renderer and are omitted). -/
structure TableCell where
  content : Str
  align : Option CellAlign := none
deriving Repr

/-- `TableRow` from `types.ts` (`isHeader?` defaults to false). -/
structure TableRow where
  cells : List TableCell
  isHeader : Bool := false
deriving Repr

/-- `getContentWidth`: longest raw line of the cell content, at least 1
(`Math.max(...lines.map(len), 1)`). -/
def getContentWidth (content : Str) : Nat :=
  max (natListMax ((splitCh '\n' content).map List.length)) 1

/-- Inner loop of `calculateColumnWidths` over one row's cells: raise
each column's running width to the raw content width of the cell in that
column.  The caller always supplies a width per column, so walking the
two lists in step is the `for (colIndex ...)` loop. -/
def updateWidthsLoop : List Nat → List TableCell → List Nat
  | [], _ => []
  | w :: ws, [] => w :: ws
  | w :: ws, cell :: cells => max w (getContentWidth cell.content) :: updateWidthsLoop ws cells

/-- Per-row step of `calculateColumnWidths`. -/
def updateWidthsForRow (widths : List Nat) (row : TableRow) : List Nat :=
  updateWidthsLoop widths row.cells

/-- `calculateColumnWidths`: start every column at `minWidth`, raise it to
the largest raw cell width, and cap at `maxWidth`. -/
def calculateColumnWidths (rows : List TableRow) (minWidth : Nat := 3)
    (maxWidth : Nat := 40) : List Nat :=
  if rows.isEmpty then []
  else
    let numColumns := natListMax (rows.map (fun row => row.cells.length))
    let widths := rows.foldl updateWidthsForRow (List.replicate numColumns minWidth)
    widths.map (fun w => min w maxWidth)

/-- Word-wrap loop of `wrapText`: greedily pack whitespace-delimited words
into lines of at most `width` characters; returns the completed lines and
the line under construction. -/
def wrapWords (width : Nat) : List Str → (List Str × Str) → (List Str × Str)
  | [], acc => acc
  | word :: rest, (lines, currentLine) =>
    if currentLine.length = 0 then
      wrapWords width rest (lines, word)
    else if currentLine.length + 1 + word.length ≤ width then
      wrapWords width rest (lines, currentLine ++ ' ' :: word)
    else
      wrapWords width rest (lines ++ [currentLine], word)

/-- `wrapText` from `custom.ts`: embedded line breaks are paragraph
boundaries; a paragraph longer than `width` is word-wrapped. -/
def wrapText (text : Str) (width : Nat) : List Str :=
  if text == ([] : Str) then [[]]
  else
    let paragraphs := splitCh '\n' text
    let result := paragraphs.foldl (fun result paragraph =>
      if paragraph.length ≤ width then
        result ++ [paragraph]
      else
        let words := splitCh ' ' paragraph
        let (lines, currentLine) := wrapWords width words ([], [])
        if currentLine == ([] : Str) then result ++ lines
        else result ++ lines ++ [currentLine]) []
    if result == ([] : List Str) then [[]] else result

/-- `padCell`: truncate to `width`, or pad with spaces according to the
alignment (default left). -/
def padCell (content : Str) (width : Nat) (align : Option CellAlign) : Str :=
  if width ≤ content.length then content.take width
  else
    let padding := width - content.length
    match align with
    | some .right => List.replicate padding ' ' ++ content
    | some .center =>
      let leftPad := padding / 2
      let rightPad := padding - leftPad
      List.replicate leftPad ' ' ++ content ++ List.replicate rightPad ' '
    | _ => content ++ List.replicate padding ' '

/-- `generateSeparator`: `+`-joined horizontal segments of `width + 2`
rule characters. -/
def generateSeparator (columnWidths : List Nat) (ch : Char) : Str :=
  '+' :: joinSep ['+'] (columnWidths.map (fun width => List.replicate (width + 2) ch)) ++ ['+']

/-- `columnWidths[colIndex] || 10` (JavaScript: missing or zero widths
fall back to 10). -/
def colWidth (columnWidths : List Nat) (colIndex : Nat) : Nat :=
  match columnWidths[colIndex]? with
  | some w => if w = 0 then 10 else w
  | none => 10

/-- `generateRowLines`: wrap every cell to its column width and emit one
`|`-joined padded line per wrapped-line index. -/
def generateRowLines (row : TableRow) (columnWidths : List Nat)
    (numColumns : Nat) : List Str :=
  let cellLines := (List.range numColumns).map (fun colIndex =>
    match row.cells[colIndex]? with
    | some cell => wrapText cell.content (colWidth columnWidths colIndex)
    | none => [([] : Str)])
  let maxLines := max (natListMax (cellLines.map List.length)) 1
  (List.range maxLines).map (fun lineIndex =>
    let segments := (List.range numColumns).map (fun colIndex =>
      let width := colWidth columnWidths colIndex
      let align :=
        match row.cells[colIndex]? with
        | some cell => cell.align
        | none => none
      let lines := cellLines[colIndex]?.getD [([] : Str)]
      let lineContent := lines[lineIndex]?.getD []
      ' ' :: padCell lineContent width align ++ [' '])
    '|' :: joinSep ['|'] segments ++ ['|'])

/-- Row loop of `generateGridTable`: the lines of each row followed by a
`=` separator after a header row and a `-` separator otherwise. -/
def gridRowsLoop (columnWidths : List Nat) (numColumns : Nat)
    (headerSep normalSep : Str) (hasHeader : Bool) :
    Nat → List TableRow → List Str
  | _, [] => []
  | rowIndex, row :: rest =>
    generateRowLines row columnWidths numColumns ++
      [if row.isHeader || (hasHeader && rowIndex == 0) then headerSep else normalSep] ++
      gridRowsLoop columnWidths numColumns headerSep normalSep hasHeader (rowIndex + 1) rest

/-- The `lines` array built by `generateGridTable` (top border, then the
row loop). -/
def generateGridTableLines (rows : List TableRow) (hasHeader : Bool) : List Str :=
  let columnWidths := calculateColumnWidths rows
  let numColumns := columnWidths.length
  let normalSep := generateSeparator columnWidths '-'
  let headerSep := generateSeparator columnWidths '='
  normalSep :: gridRowsLoop columnWidths numColumns headerSep normalSep hasHeader 0 rows

/-- `generateGridTable`: empty for an empty row list, otherwise the lines
joined with newlines. -/
def generateGridTable (rows : List TableRow) (hasHeader : Bool := false) : Str :=
  if rows.isEmpty then []
  else joinSep ['\n'] (generateGridTableLines rows hasHeader)

/-- Longest wrapped line of a cell when word-wrapped at width `w`
(the spec's notion of "content width"). -/
def wrappedWidth (cell : TableCell) (w : Nat) : Nat :=
  natListMax ((wrapText cell.content w).map List.length)

/-- Largest wrapped content width in column `c` across all rows, at the
candidate width `w` (spec formulation). -/
def colWrappedMax (rows : List TableRow) (c : Nat) (w : Nat) : Nat :=
  natListMax (rows.filterMap (fun row => row.cells[c]?.map (fun cell => wrappedWidth cell w)))

/-- Modelled from the spec (claim C1's wording): every per-column width
equals `max(minWidth=3, wrapped content width at the column's eventual
width)` capped at `maxWidth=40`. -/
def specClaimedWidths (rows : List TableRow) : Prop :=
  ∀ c, ∀ h : c < (calculateColumnWidths rows).length,
    (calculateColumnWidths rows).get ⟨c, h⟩ =
      min (max 3 (colWrappedMax rows c ((calculateColumnWidths rows).get ⟨c, h⟩))) 40

instance (rows : List TableRow) : Decidable (specClaimedWidths rows) := by
  unfold specClaimedWidths
  exact Nat.decidableBallLT _ _

/-- Largest raw content width in column `c` across all rows (what the
code actually measures). -/
def colRawMax (rows : List TableRow) (c : Nat) : Nat :=
  natListMax (rows.filterMap (fun row => row.cells[c]?.map (fun cell => getContentWidth cell.content)))

/-! ### Caption parser (`src/taskpane/taskpane.ts`, caption section) -/

/-- `ParsedCaption` from `types.ts`. -/
structure ParsedCaption where
  type : Str
  number : Str
  text : Str
  original : Str
deriving DecidableEq, Repr

/-- Characters of the separator class `[:.–—-]`. -/
def isSepDash (c : Char) : Bool :=
  c = ':' || c = '.' || c = '–' || c = '—' || c = '-'

/-- Word alternatives of `CAPTION_PATTERNS` (lower-cased, in regex
alternation order, `X\.?` expanded to `X.` then `X`). -/
def captionWordPatterns : List (Str × List Str) :=
  [ (strL "Figure", [strL "figure", strL "fig.", strL "fig"]),
    (strL "Table", [strL "table", strL "tbl.", strL "tbl"]),
    (strL "Listing", [strL "listing", strL "list.", strL "list", strL "code"]),
    (strL "Equation", [strL "equation", strL "eq.", strL "eq"]),
    (strL "Example", [strL "example", strL "ex.", strL "ex"]),
    (strL "Chart", [strL "chart"]),
    (strL "Diagram", [strL "diagram"]) ]

/-- Match one word pattern `^(Alt1|Alt2|...)\s+` case-insensitively,
returning the length of `match[0]` (alternative plus the greedy
whitespace run). -/
def matchTypePat (alts : List Str) (s : Str) : Option Nat :=
  alts.findSome? (fun alt =>
    if strStarts (lowerStr s) alt then
      let ws := (s.drop alt.length).takeWhile isWsChar
      if 1 ≤ ws.length then some (alt.length + ws.length) else none
    else none)

/-- First matching entry of the word patterns, with its type name. -/
def findWordPattern (s : Str) : Option (Str × Nat) :=
  captionWordPatterns.findSome? (fun p => (matchTypePat p.2 s).map (fun n => (p.1, n)))

/-- Candidate matches of `\d+(?:\.\d+)*` after an initial digit run:
each candidate is the number text and the rest of the input, ordered from
the greedy (most `.digits` repetitions) match to the fewest, exactly the
order a backtracking regex engine tries them.  The first argument is
recursion fuel (every repetition consumes at least two characters, so the
input length is enough). -/
def numCandidatesAux : Nat → Str → Str → List (Str × Str)
  | 0, acc, s => [(acc, s)]
  | fuel + 1, acc, s =>
    match s with
    | '.' :: rest =>
      let ds := rest.takeWhile Char.isDigit
      if ds = ([] : Str) then [(acc, s)]
      else numCandidatesAux fuel (acc ++ '.' :: ds) (rest.drop ds.length) ++ [(acc, s)]
    | _ => [(acc, s)]

/-- All candidate matches of `^(\d+(?:\.\d+)*)`, longest first (empty if
the input has no leading digit). -/
def numberCandidates (s : Str) : List (Str × Str) :=
  let d := s.takeWhile Char.isDigit
  if d = ([] : Str) then [] else numCandidatesAux s.length d (s.drop d.length)

/-- Match of the generic pattern `^(\d+(?:\.\d+)*)\s*[:.]\s*` (the `Item`
entry of `CAPTION_PATTERNS`), returning the length of `match[0]` and the
captured number.  The character classes `\d`, `\s` and `[:.]` are
pairwise disjoint, so only the repetition count backtracks. -/
def matchItemPat (s : Str) : Option (Nat × Str) :=
  (numberCandidates s).findSome? (fun p =>
    match p.2.dropWhile isWsChar with
    | c :: rest2 =>
      if c = ':' || c = '.' then
        some (s.length - (rest2.dropWhile isWsChar).length, p.1)
      else none
    | [] => none)

/-- Match of `^\s*[:.–—-]\s*`, returning the length of the match. -/
def matchSeparator (s : Str) : Option Nat :=
  match s.dropWhile isWsChar with
  | c :: rest =>
    if isSepDash c then some (s.length - (rest.dropWhile isWsChar).length)
    else none
  | [] => none

/-- Match of the fallback `^(\d+(?:\.\d+)*)\s*[:.–—-]\s*(.*)$`, returning
the number and the trailing capture (single-line inputs, as produced by
the paragraph pipeline). -/
def matchSimpleNumber (s : Str) : Option (Str × Str) :=
  (numberCandidates s).findSome? (fun p =>
    match p.2.dropWhile isWsChar with
    | c :: rest2 =>
      if isSepDash c then some (p.1, rest2.dropWhile isWsChar) else none
    | [] => none)

/-- Number and separator stripping shared by every `CAPTION_PATTERNS`
branch of `parseCaption`: greedy `^(\d+(?:\.\d+)*)` on the remainder,
then an optional `^\s*[:.–—-]\s*` separator, then trim. -/
def captionNumberAndText (remainder : Str) : Str × Str :=
  let numPart :=
    match (numberCandidates remainder).head? with
    | some p => (p.1, remainder.length - p.2.length)
    | none => (([] : Str), 0)
  let text0 := remainder.drop numPart.2
  let text1 :=
    match matchSeparator text0 with
    | some n => text0.drop n
    | none => text0
  (numPart.1, trimStr text1)

/-- `parseCaption` from the caption-parser section: try the word
patterns in order, then the generic numbered pattern, then the simple
numbered fallback. -/
def parseCaption (caption : Str) : Option ParsedCaption :=
  let trimmed := trimStr caption
  if trimmed == ([] : Str) then none
  else
    match findWordPattern trimmed with
    | some tm =>
      let remainder := trimmed.drop tm.2
      let nt := captionNumberAndText remainder
      some { type := tm.1, number := nt.1, text := nt.2, original := trimmed }
    | none =>
      match matchItemPat trimmed with
      | some lm =>
        let remainder := trimmed.drop lm.1
        let nt := captionNumberAndText remainder
        some { type := strL "Item", number := lm.2, text := nt.2, original := trimmed }
      | none =>
        match matchSimpleNumber trimmed with
        | some p =>
          some { type := strL "Item", number := p.1, text := trimStr p.2, original := trimmed }
        | none => none

/-! ### Document elements and post-processing (`src/converter/html-parser.ts`) -/

/-- `'ordered' | 'unordered'`. -/
inductive ListType where
  | ordered
  | unordered
deriving DecidableEq, Repr

mutual
/-- `ListElement` from `types.ts`. -/
inductive ListElement where
  | mk (listType : ListType) (items : List ListItem) (html : Str)
/-- `ListItem` from `types.ts` (`indentLevel` is the transient parse-time
field; a missing optional field is `none`). -/
inductive ListItem where
  | mk (content : Str) (nestedList : Option ListElement) (indentLevel : Option Nat)
end

def ListElement.listType : ListElement → ListType
  | .mk t _ _ => t

def ListElement.items : ListElement → List ListItem
  | .mk _ its _ => its

def ListElement.html : ListElement → Str
  | .mk _ _ h => h

def ListItem.content : ListItem → Str
  | .mk c _ _ => c

def ListItem.nestedList : ListItem → Option ListElement
  | .mk _ n _ => n

def ListItem.indentLevel : ListItem → Option Nat
  | .mk _ _ i => i

/-- Append an item at the end of a list's items. -/
def ListElement.pushItem (l : ListElement) (item : ListItem) : ListElement :=
  .mk l.listType (l.items ++ [item]) l.html

/-- Replace the last item of a list (the in-place mutation of
`items[items.length - 1]`). -/
def ListElement.setLast (l : ListElement) (item : ListItem) : ListElement :=
  .mk l.listType (l.items.dropLast ++ [item]) l.html

/-- Replace the first item of a list (the in-place mutation of
`items[0]`). -/
def ListElement.setFirst (l : ListElement) (item : ListItem) : ListElement :=
  .mk l.listType (item :: l.items.tail) l.html

/-- Replace an item's nested list. -/
def ListItem.withNested (item : ListItem) (n : Option ListElement) : ListItem :=
  .mk item.content n item.indentLevel

/-- The empty nested list created on demand
(`{ type: 'list', listType: itemListType, items: [], html: '' }`). -/
def ListElement.emptyOf (t : ListType) : ListElement :=
  .mk t [] []

/-- `delete newItem.indentLevel`. -/
def eraseIndent (item : ListItem) : ListItem :=
  .mk item.content item.nestedList none

/-- The descent loop of `addItemToList` (`while currentIndent <
targetIndent`): the numeric argument is the remaining depth.  The
`0` case is the dead fall-through after the loop. -/
def addDescend (item : ListItem) (itemListType : ListType) :
    Nat → ListElement → ListElement
  | 0, l => l.pushItem item
  | remaining + 1, l =>
    match l.items.getLast? with
    | none => l.pushItem item
    | some lastItem =>
      if remaining = 0 then
        let nl := (lastItem.nestedList.getD (ListElement.emptyOf itemListType)).pushItem item
        l.setLast (lastItem.withNested (some nl))
      else
        let nl := lastItem.nestedList.getD (ListElement.emptyOf itemListType)
        l.setLast (lastItem.withNested (some (addDescend item itemListType remaining nl)))

/-- `addItemToList` from `html-parser.ts`: erase the transient indent
level, then insert at the requested depth along the chain of last items,
creating empty nested lists of the item's type for missing levels. -/
def addItemToList (rootList : ListElement) (newItem : ListItem)
    (targetIndent : Nat) (itemListType : ListType) : ListElement :=
  let item := eraseIndent newItem
  if targetIndent = 0 then
    if rootList.listType == itemListType then
      rootList.pushItem item
    else
      match rootList.items.getLast? with
      | none => rootList
      | some lastItem =>
        let nl := (lastItem.nestedList.getD (ListElement.emptyOf itemListType)).pushItem item
        rootList.setLast (lastItem.withNested (some nl))
  else
    addDescend item itemListType targetIndent rootList

/-- `TableOptions` from `types.ts` (fields read or written by the
post-processing and rendering paths). -/
structure TableOptions where
  caption : Option Str := none
  tableNumber : Option Str := none
  align : Option CellAlign := none
  width : Option Str := none
  name : Option Str := none
  hasHeader : Bool := false

/-- `TableData` from `types.ts`. -/
structure TableData where
  rows : List TableRow
  options : TableOptions

/-- `ExtractedImage` from `types.ts` (metadata fields only). -/
structure ExtractedImage where
  id : Str
  filename : Str
  base64Data : Str
  format : Str

/-- `AnyDocumentElement`: the element kinds handled by
`postProcessElements` carry the fields it reads; image, figure and toc
elements only pass through and keep their html payload. -/
inductive DocumentElement where
  | paragraph (content : Str) (style : Option Str) (isBlockQuote : Bool)
  | heading (level : Int) (text : Str) (style : Option Str)
  | list (l : ListElement)
  | image (html : Str)
  | figure (html : Str)
  | table (data : TableData)
  | toc (html : Str)
  | directive (style : Option Str) (d : CustomDirective)

/-- One iteration of the `postProcessElements` loop: `result` is the
accumulated output, `current` the next element. -/
def ppStep (result : List DocumentElement) (current : DocumentElement) :
    List DocumentElement :=
  match current with
  | .paragraph _ style _ =>
    let styleLC := lowerStr (style.getD [])
    if strContains styleLC (strL "caption") || strContains styleLC (strL "figcaption") then
      match result.getLast? with
      | some (.figure _) => result
      | _ => result ++ [current]
    else result ++ [current]
  | .directive style d =>
    match result.getLast? with
    | some (.directive lastStyle lastD) =>
      if lastStyle == style then
        result.dropLast ++
          [.directive lastStyle { lastD with content := lastD.content ++ '\n' :: '\n' :: d.content }]
      else result ++ [current]
    | _ => result ++ [current]
  | .list l =>
    match l.items.head? with
    | none => result ++ [current]
    | some newItem =>
      let newIndent := newItem.indentLevel.getD 0
      match result.getLast? with
      | some (.list lastList) =>
        result.dropLast ++ [.list (addItemToList lastList newItem newIndent l.listType)]
      | _ => result ++ [.list (l.setFirst (eraseIndent newItem))]
  | .table data =>
    match result.getLast? with
    | some (.paragraph pContent pStyle _) =>
      let styleLC := lowerStr (pStyle.getD [])
      let contentLC := lowerStr pContent
      if strContains styleLC (strL "caption") || strStarts contentLC (strL "table ") then
        let captionText := trimStr pContent
        let data' :=
          match parseCaption captionText with
          | some parsed =>
            if parsed.type == strL "Table" then
              { data with options := { data.options with
                  caption := some parsed.text
                  tableNumber := some parsed.number
                  name := some (strL "table-" ++
                    parsed.number.map (fun c => if c = '.' then '-' else c)) } }
            else if strContains styleLC (strL "caption") then
              { data with options := { data.options with caption := some captionText } }
            else data
          | none =>
            if strContains styleLC (strL "caption") then
              { data with options := { data.options with caption := some captionText } }
            else data
        let captionSet :=
          match data'.options.caption with
          | some c => !(c == ([] : Str))
          | none => false
        if captionSet then result.dropLast ++ [.table data']
        else result ++ [.table data']
      else result ++ [current]
    | _ => result ++ [current]
  | _ => result ++ [current]

/-- `postProcessElements` from `html-parser.ts`. -/
def postProcessElements (elements : List DocumentElement) : List DocumentElement :=
  elements.foldl ppStep []

mutual
/-- No item anywhere in this list carries the transient `indentLevel`
field. -/
def listNoIndent : ListElement → Bool
  | .mk _ items _ => itemsNoIndent items
/-- `listNoIndent` over a list of items. -/
def itemsNoIndent : List ListItem → Bool
  | [] => true
  | i :: rest => itemNoIndent i && itemsNoIndent rest
/-- The item carries no `indentLevel` and neither does its nested list. -/
def itemNoIndent : ListItem → Bool
  | .mk _ nested ind =>
    ind.isNone &&
      (match nested with
       | none => true
       | some nl => listNoIndent nl)
end

/-- Shape of the list elements the parser feeds to `postProcessElements`:
a single-item list from `parseWordListItem` (whose one item may carry an
`indentLevel` hint but has no nested list), or a list from
`parseListElement` (no `indentLevel` anywhere).  Both satisfy: the first
item's nested list and all further items are free of `indentLevel`. -/
def inputListOk (l : ListElement) : Bool :=
  match l.items with
  | [] => true
  | first :: rest =>
    (match first.nestedList with
     | none => true
     | some nl => listNoIndent nl) && itemsNoIndent rest

/-- Every list element of a sequence satisfies `p` (other element kinds
are ignored). -/
def elemListsOk (p : ListElement → Bool) (elements : List DocumentElement) : Bool :=
  elements.all (fun e =>
    match e with
    | .list l => p l
    | _ => true)

/-! ### Heading formatting (`src/converter/rst-formatter.ts`) -/

/-- `HEADING_CHARS`. -/
def HEADING_CHARS : List Char := ['=', '-', '~', '^', '"', '\'']

/-- `getTextWidth`: the exact character count of the text. -/
def getTextWidth (text : Str) : Nat := text.length

/-- The lines pushed by `formatHeading`: optional overline (level 1 with
the option enabled), the text, the underline of matching length. -/
def formatHeadingLines (level : Nat) (text : Str) (titleOverline : Bool) : List Str :=
  let charIndex := min (level - 1) (HEADING_CHARS.length - 1)
  let underlineChar := HEADING_CHARS.getD charIndex ' '
  let underline := List.replicate (getTextWidth text) underlineChar
  (if level = 1 && titleOverline then [underline] else []) ++ [text, underline]

/-- `formatHeading` from `rst-formatter.ts`. -/
def formatHeading (level : Nat) (text : Str) (titleOverline : Bool) : Str :=
  joinSep ['\n'] (formatHeadingLines level text titleOverline)

/-! ### Heading level clamping (`src/converter/html-parser.ts`) -/

/-- The clamp `Math.min(Math.max(level, 1), 6)` applied by
`parseHeadingElement` to whatever level `detectHeadingLevel` produced
(tag digit, class-pattern digit, or outline-level digit). -/
def clampHeadingLevel (level : Int) : Int := min (max level 1) 6

/-- `parseHeadingElement`: builds the Heading element with the clamped
level. -/
def parseHeadingElement (level : Int) (text : Str) (style : Option Str) :
    DocumentElement :=
  .heading (clampHeadingLevel level) text style

/-! ### Conversion entry points (`src/converter/html-parser.ts`,
`src/converter/word-to-rst.ts`) -/

/-- Result of `parseWordHtml` (elements and extracted images; metadata is
not read by any claim). -/
structure ParsedDocumentModel where
  elements : List DocumentElement
  images : List ExtractedImage

/-- The element-collection loop of `parseWordHtml` over the per-block
results of `parseElement` (`none` models a `null` return, `some es` a
single element or an array), followed by `postProcessElements`.  The DOM
traversal itself is not modelled; its output list of block results is the
input. -/
def parseWordHtmlModel (blockResults : List (Option (List DocumentElement)))
    (images : List ExtractedImage) : ParsedDocumentModel :=
  let elements := blockResults.foldl (fun acc r =>
    match r with
    | some es => acc ++ es
    | none => acc) []
  { elements := postProcessElements elements, images := images }

/-- `ConversionResult` fields asserted by the claims (the rendered `rst`
text is not read by any claim and is omitted). -/
structure ConversionResultModel where
  images : List ExtractedImage
  warnings : List Str
  elements : Option (List DocumentElement)

/-- `convertToRst` (default options): on a parser exception it returns
empty results plus one warning; otherwise it passes the parsed elements
and images through with no warnings. -/
def convertToRstModel (parsed : Except Str ParsedDocumentModel) :
    ConversionResultModel :=
  match parsed with
  | .error msg =>
    { images := [], warnings := [strL "HTML parsing error: " ++ msg], elements := none }
  | .ok p =>
    { images := p.images, warnings := [], elements := some p.elements }

/-- Concrete sample rows used by witnesses (a 2-column header row). -/
def sampleHeaderRow : TableRow :=
  { cells := [{ content := strL "Name" }, { content := strL "Age" }], isHeader := true }

/-- Concrete sample rows used by witnesses (a 2-column body row). -/
def sampleBodyRow : TableRow :=
  { cells := [{ content := strL "Alice" }, { content := strL "30" }] }

/-- Concrete flat list-item sequence used by witnesses. -/
def sampleListElements : List DocumentElement :=
  [.list (.mk .unordered [.mk (strL "a") none (some 0)] []),
   .list (.mk .unordered [.mk (strL "b") none (some 1)] [])]

/-! ### Helper lemmas -/

theorem updateWidthsLoop_getElem? (ws : List Nat) (cs : List TableCell) (c : Nat) :
    (updateWidthsLoop ws cs)[c]? =
      ws[c]?.map (fun w =>
        match cs[c]? with
        | some cell => max w (getContentWidth cell.content)
        | none => w) := by
  induction ws generalizing cs c with
  | nil => simp [updateWidthsLoop]
  | cons w ws ih =>
    cases cs with
    | nil => cases c <;> simp [updateWidthsLoop]
    | cons cell cs =>
      cases c with
      | zero => simp [updateWidthsLoop]
      | succ c => simp [updateWidthsLoop, ih]

theorem foldl_updateWidths_getElem? (rows : List TableRow) (acc : List Nat) (c : Nat) :
    (rows.foldl updateWidthsForRow acc)[c]? =
      acc[c]?.map (fun a => rows.foldl (fun v row =>
        match row.cells[c]? with
        | some cell => max v (getContentWidth cell.content)
        | none => v) a) := by
  induction rows generalizing acc with
  | nil => cases h : acc[c]? <;> simp [h]
  | cons r rs ih =>
    simp only [List.foldl_cons]
    rw [ih, updateWidthsForRow, updateWidthsLoop_getElem?]
    cases h : acc[c]? <;> simp [h]

theorem foldl_colstep_eq_max (rows : List TableRow) (c : Nat) (a : Nat) :
    (rows.foldl (fun v row =>
      match row.cells[c]? with
      | some cell => max v (getContentWidth cell.content)
      | none => v) a) = max a (colRawMax rows c) := by
  induction rows generalizing a with
  | nil => simp [colRawMax, natListMax]
  | cons r rs ih =>
    simp only [List.foldl_cons]
    cases h : r.cells[c]? with
    | none => rw [ih]; simp [colRawMax, List.filterMap_cons, h]
    | some cell =>
      rw [ih]
      simp only [colRawMax, List.filterMap_cons, h, Option.map_some, natListMax]
      rw [Nat.max_assoc]

theorem updateWidthsLoop_length (ws : List Nat) (cs : List TableCell) :
    (updateWidthsLoop ws cs).length = ws.length := by
  induction ws generalizing cs with
  | nil => simp [updateWidthsLoop]
  | cons w ws ih =>
    cases cs with
    | nil => simp [updateWidthsLoop]
    | cons cell cs => simp [updateWidthsLoop, ih]

theorem foldl_updateWidths_length (rows : List TableRow) (acc : List Nat) :
    (rows.foldl updateWidthsForRow acc).length = acc.length := by
  induction rows generalizing acc with
  | nil => rfl
  | cons r rs ih => simp [List.foldl_cons, ih, updateWidthsForRow, updateWidthsLoop_length]

theorem calculateColumnWidths_getElem? (rows : List TableRow) (c : Nat)
    (h : c < (calculateColumnWidths rows).length) :
    (calculateColumnWidths rows)[c]? = some (min (max 3 (colRawMax rows c)) 40) := by
  have hne : ¬ rows.isEmpty := by
    intro he
    rw [calculateColumnWidths, if_pos he] at h
    simp at h
  have hlen : c < (List.replicate (natListMax (rows.map (fun row => row.cells.length))) 3).length := by
    rw [calculateColumnWidths, if_neg hne] at h
    simpa [foldl_updateWidths_length] using h
  have hsome : (rows.foldl updateWidthsForRow
      (List.replicate (natListMax (rows.map (fun row => row.cells.length))) 3))[c]? =
      some (max 3 (colRawMax rows c)) := by
    rw [foldl_updateWidths_getElem?]
    rw [List.getElem?_replicate, if_pos (by simpa using hlen)]
    simp [foldl_colstep_eq_max]
  rw [calculateColumnWidths, if_neg hne]
  simp only [List.getElem?_map, hsome]
  rfl

theorem calculateColumnWidths_get (rows : List TableRow) (c : Nat)
    (h : c < (calculateColumnWidths rows).length) :
    (calculateColumnWidths rows).get ⟨c, h⟩ = min (max 3 (colRawMax rows c)) 40 := by
  have hval := calculateColumnWidths_getElem? rows c h
  have hg : (calculateColumnWidths rows)[c]? = some ((calculateColumnWidths rows).get ⟨c, h⟩) := by
    simp [List.getElem?_eq_getElem h, List.get_eq_getElem]
  exact Option.some.inj (hg.symm.trans hval)

theorem padCell_length (s : Str) (w : Nat) (a : Option CellAlign) :
    (padCell s w a).length = w := by
  unfold padCell
  split
  · simp
    omega
  · rcases a with - | al
    · simp
      omega
    · cases al <;> simp <;> omega

theorem joinSep_pair (sep : Str) (x y : Str) :
    joinSep sep [x, y] = x ++ sep ++ y := by
  simp [joinSep]

theorem generateSeparator_pair_length (w0 w1 : Nat) (ch : Char) :
    (generateSeparator [w0, w1] ch).length = w0 + w1 + 7 := by
  simp [generateSeparator, joinSep]
  omega

theorem joinSep_mem_sepmap (ch : Char) (ws : List Nat) :
    ∀ c ∈ joinSep ['+'] (ws.map (fun w => List.replicate (w + 2) ch)),
      c = '+' ∨ c = ch := by
  induction ws with
  | nil => simp [joinSep]
  | cons w ws ih =>
    cases ws with
    | nil =>
      intro c hc
      simp [joinSep] at hc
      exact Or.inr hc
    | cons w' ws' =>
      intro c hc
      simp only [List.map_cons, joinSep, List.append_assoc, List.mem_append] at hc
      rcases hc with h | h | h
      · right
        exact (List.eq_of_mem_replicate h)
      · left
        simpa using h
      · exact ih c (by simpa using h)

theorem generateSeparator_mem (ws : List Nat) (ch : Char) :
    ∀ c ∈ generateSeparator ws ch, c = '+' ∨ c = ch := by
  intro c hc
  unfold generateSeparator at hc
  rcases List.mem_append.mp hc with h | h
  · rcases List.mem_cons.mp h with h | h
    · exact Or.inl h
    · exact joinSep_mem_sepmap ch ws c h
  · exact Or.inl (by simpa using h)

theorem generateRowLines_pair_length (row : TableRow) (w0 w1 : Nat)
    (h0 : w0 ≠ 0) (h1 : w1 ≠ 0) :
    ∀ l ∈ generateRowLines row [w0, w1] 2, l.length = w0 + w1 + 7 := by
  intro l hl
  have hrange : List.range 2 = [0, 1] := by decide
  unfold generateRowLines at hl
  rw [hrange] at hl
  simp only [List.mem_map, List.mem_range] at hl
  obtain ⟨i, -, rfl⟩ := hl
  have hc0 : colWidth [w0, w1] 0 = w0 := by
    simp [colWidth, h0]
  have hc1 : colWidth [w0, w1] 1 = w1 := by
    simp [colWidth, h1]
  simp [joinSep_pair, padCell_length, hc0, hc1, List.length_append]
  omega

theorem itemsNoIndent_iff (xs : List ListItem) :
    itemsNoIndent xs = true ↔ ∀ i ∈ xs, itemNoIndent i = true := by
  induction xs with
  | nil => simp [itemsNoIndent]
  | cons x xs ih =>
    rw [show itemsNoIndent (x :: xs) = (itemNoIndent x && itemsNoIndent xs) from rfl,
      Bool.and_eq_true, ih]
    simp

theorem listNoIndent_iff (t : ListType) (items : List ListItem) (html : Str) :
    listNoIndent (.mk t items html) = true ↔ ∀ i ∈ items, itemNoIndent i = true := by
  rw [show listNoIndent (.mk t items html) = itemsNoIndent items from rfl]
  exact itemsNoIndent_iff items

theorem listNoIndent_forall (l : ListElement) (hl : listNoIndent l = true) :
    ∀ i ∈ l.items, itemNoIndent i = true := by
  cases l with
  | mk t items html => exact (listNoIndent_iff t items html).mp hl

theorem itemNoIndent_parts (c : Str) (n : Option ListElement) (ind : Option Nat)
    (h : itemNoIndent (.mk c n ind) = true) :
    ind.isNone = true ∧ (∀ nl, n = some nl → listNoIndent nl = true) := by
  cases n with
  | none =>
    rw [show itemNoIndent (.mk c none ind) = (ind.isNone && true) from rfl,
      Bool.and_eq_true] at h
    exact ⟨h.1, fun nl hnl => by cases hnl⟩
  | some nl0 =>
    rw [show itemNoIndent (.mk c (some nl0) ind) = (ind.isNone && listNoIndent nl0) from rfl,
      Bool.and_eq_true] at h
    exact ⟨h.1, fun nl hnl => by cases hnl; exact h.2⟩

theorem listNoIndent_pushItem (l : ListElement) (i : ListItem)
    (hl : listNoIndent l = true) (hi : itemNoIndent i = true) :
    listNoIndent (l.pushItem i) = true := by
  cases l with
  | mk t items html =>
    rw [show (ListElement.mk t items html).pushItem i = .mk t (items ++ [i]) html from rfl,
      listNoIndent_iff]
    intro j hj
    rcases List.mem_append.mp hj with h | h
    · exact (listNoIndent_iff t items html).mp hl j h
    · rw [List.mem_singleton.mp h]
      exact hi

theorem listNoIndent_setLast (l : ListElement) (i : ListItem)
    (hl : listNoIndent l = true) (hi : itemNoIndent i = true) :
    listNoIndent (l.setLast i) = true := by
  cases l with
  | mk t items html =>
    rw [show (ListElement.mk t items html).setLast i =
      .mk t (items.dropLast ++ [i]) html from rfl, listNoIndent_iff]
    intro j hj
    rcases List.mem_append.mp hj with h | h
    · exact (listNoIndent_iff t items html).mp hl j ((List.dropLast_sublist items).subset h)
    · rw [List.mem_singleton.mp h]
      exact hi

theorem itemNoIndent_withNested (i : ListItem) (nl : ListElement)
    (hi : itemNoIndent i = true) (hnl : listNoIndent nl = true) :
    itemNoIndent (i.withNested (some nl)) = true := by
  cases i with
  | mk c nOld ind =>
    have h1 := (itemNoIndent_parts c nOld ind hi).1
    show itemNoIndent (.mk c (some nl) ind) = true
    rw [show itemNoIndent (.mk c (some nl) ind) = (ind.isNone && listNoIndent nl) from rfl,
      Bool.and_eq_true]
    exact ⟨h1, hnl⟩

theorem listNoIndent_nested_getD (i : ListItem) (t : ListType)
    (hi : itemNoIndent i = true) :
    listNoIndent (i.nestedList.getD (ListElement.emptyOf t)) = true := by
  cases i with
  | mk c n ind =>
    cases n with
    | none => cases t <;> rfl
    | some nl =>
      exact (itemNoIndent_parts c (some nl) ind hi).2 nl rfl

theorem listNoIndent_addDescend (item : ListItem) (t : ListType) (n : Nat)
    (l : ListElement) (hl : listNoIndent l = true) (hi : itemNoIndent item = true) :
    listNoIndent (addDescend item t n l) = true := by
  induction n generalizing l with
  | zero => exact listNoIndent_pushItem l item hl hi
  | succ n ih =>
    rw [addDescend]
    cases hlast : l.items.getLast? with
    | none => exact listNoIndent_pushItem l item hl hi
    | some lastItem =>
      have hlastItem : itemNoIndent lastItem = true :=
        listNoIndent_forall l hl lastItem (List.mem_of_mem_getLast? hlast)
      by_cases hn : n = 0
      · subst hn
        simp only [if_pos rfl]
        refine listNoIndent_setLast l _ hl ?_
        refine itemNoIndent_withNested _ _ hlastItem ?_
        exact listNoIndent_pushItem _ item (listNoIndent_nested_getD lastItem t hlastItem) hi
      · simp only [if_neg hn]
        refine listNoIndent_setLast l _ hl ?_
        refine itemNoIndent_withNested _ _ hlastItem ?_
        exact ih _ (listNoIndent_nested_getD lastItem t hlastItem)

theorem listNoIndent_addItemToList (root : ListElement) (newItem : ListItem)
    (n : Nat) (t : ListType) (hl : listNoIndent root = true)
    (hi : itemNoIndent (eraseIndent newItem) = true) :
    listNoIndent (addItemToList root newItem n t) = true := by
  rw [addItemToList]
  by_cases hn : n = 0
  · subst hn
    simp only [if_pos rfl]
    by_cases hty : (root.listType == t) = true
    · rw [if_pos hty]
      exact listNoIndent_pushItem root _ hl hi
    · rw [if_neg hty]
      cases hlast : root.items.getLast? with
      | none => exact hl
      | some lastItem =>
        have hlastItem : itemNoIndent lastItem = true :=
          listNoIndent_forall root hl lastItem (List.mem_of_mem_getLast? hlast)
        refine listNoIndent_setLast root _ hl ?_
        refine itemNoIndent_withNested _ _ hlastItem ?_
        exact listNoIndent_pushItem _ _ (listNoIndent_nested_getD lastItem t hlastItem) hi
  · simp only [if_neg hn]
    exact listNoIndent_addDescend _ t n root hl hi

theorem mem_list_append_single (l : ListElement) (res : List DocumentElement)
    (e : DocumentElement) (h : DocumentElement.list l ∈ res ++ [e]) :
    DocumentElement.list l ∈ res ∨ e = DocumentElement.list l := by
  rcases List.mem_append.mp h with h' | h'
  · exact Or.inl h'
  · exact Or.inr (List.mem_singleton.mp h').symm

theorem mem_list_dropLast (l : ListElement) (res : List DocumentElement)
    (h : DocumentElement.list l ∈ res.dropLast) : DocumentElement.list l ∈ res :=
  (List.dropLast_sublist res).subset h

theorem inputListOk_head_item (l : ListElement) (first : ListItem)
    (h : inputListOk l = true) (hh : l.items.head? = some first) :
    itemNoIndent (eraseIndent first) = true := by
  cases l with
  | mk t items html =>
    cases items with
    | nil => cases hh
    | cons f rest =>
      have hf : first = f := by
        simpa [ListElement.items] using hh.symm
      subst hf
      rw [show inputListOk (.mk t (first :: rest) html) =
        ((match first.nestedList with
          | none => true
          | some nl => listNoIndent nl) && itemsNoIndent rest) from rfl,
        Bool.and_eq_true] at h
      cases hfirst : first.nestedList with
      | none =>
        show itemNoIndent (.mk first.content first.nestedList none) = true
        rw [hfirst]
        rfl
      | some nl =>
        show itemNoIndent (.mk first.content first.nestedList none) = true
        rw [hfirst]
        rw [show itemNoIndent (.mk first.content (some nl) none) =
          ((none : Option Nat).isNone && listNoIndent nl) from rfl]
        rw [hfirst] at h
        simpa using h.1

theorem inputListOk_setFirst (l : ListElement) (first : ListItem)
    (h : inputListOk l = true) (hh : l.items.head? = some first) :
    listNoIndent (l.setFirst (eraseIndent first)) = true := by
  cases l with
  | mk t items html =>
    cases items with
    | nil => cases hh
    | cons f rest =>
      have hf : first = f := by
        simpa [ListElement.items] using hh.symm
      subst hf
      rw [show (ListElement.mk t (first :: rest) html).setFirst (eraseIndent first) =
        .mk t (eraseIndent first :: rest) html from rfl, listNoIndent_iff]
      rw [show inputListOk (.mk t (first :: rest) html) =
        ((match first.nestedList with
          | none => true
          | some nl => listNoIndent nl) && itemsNoIndent rest) from rfl,
        Bool.and_eq_true] at h
      intro i hi
      rcases List.mem_cons.mp hi with rfl | hi'
      · exact inputListOk_head_item (.mk t (first :: rest) html) first
          (by
            rw [show inputListOk (.mk t (first :: rest) html) =
              ((match first.nestedList with
                | none => true
                | some nl => listNoIndent nl) && itemsNoIndent rest) from rfl,
              Bool.and_eq_true]
            exact h) rfl
      · exact (itemsNoIndent_iff rest).mp h.2 i hi'
theorem ppStep_preserves (result : List DocumentElement) (cur : DocumentElement)
    (hres : ∀ l, DocumentElement.list l ∈ result → listNoIndent l = true)
    (hcur : ∀ l, cur = DocumentElement.list l → inputListOk l = true) :
    ∀ l, DocumentElement.list l ∈ ppStep result cur → listNoIndent l = true := by
  intro l hl
  cases cur with
  | list lc =>
    simp only [ppStep] at hl
    split at hl
    · rename_i hnone
      rcases mem_list_append_single l result _ hl with h | h
      · exact hres l h
      · cases h
        cases l with
        | mk t items html =>
          cases items with
          | nil => rfl
          | cons a b => simp [ListElement.items] at hnone
    · rename_i newItem hhead
      split at hl
      · rename_i lastList hlast
        rcases mem_list_append_single l _ _ hl with h | h
        · exact hres l (mem_list_dropLast l result h)
        · cases h
          refine listNoIndent_addItemToList lastList newItem _ _ ?_ ?_
          · exact hres lastList (List.mem_of_mem_getLast? hlast)
          · exact inputListOk_head_item lc newItem (hcur lc rfl) hhead
      · rcases mem_list_append_single l result _ hl with h | h
        · exact hres l h
        · cases h
          exact inputListOk_setFirst lc newItem (hcur lc rfl) hhead
  | _ =>
    simp only [ppStep] at hl
    repeat' split at hl
    all_goals
      first
        | exact hres l hl
        | (rcases mem_list_append_single l _ _ hl with h | h <;>
            first
              | exact hres l h
              | exact hres l (mem_list_dropLast l result h)
              | cases h)

theorem foldl_ppStep_noIndent : ∀ (es init : List DocumentElement),
    (∀ l, DocumentElement.list l ∈ es → inputListOk l = true) →
    (∀ l, DocumentElement.list l ∈ init → listNoIndent l = true) →
    ∀ l, DocumentElement.list l ∈ es.foldl ppStep init → listNoIndent l = true := by
  intro es
  induction es with
  | nil => intro init hes hinit; exact hinit
  | cons e es ih =>
    intro init hes hinit
    simp only [List.foldl_cons]
    exact ih _ (fun l hl => hes l (List.mem_cons_of_mem e hl))
      (ppStep_preserves init e hinit
        (fun l hl => hes l (by rw [← hl]; exact List.mem_cons_self e es)))

theorem elemListsOk_iff (p : ListElement → Bool) (es : List DocumentElement) :
    elemListsOk p es = true ↔
      ∀ l : ListElement, DocumentElement.list l ∈ es → p l = true := by
  rw [elemListsOk, List.all_eq_true]
  constructor
  · intro h l hl
    simpa using h _ hl
  · intro h e he
    cases e <;> simp
    case list l => exact h l he

/-! ### Claim theorems -/

/-- C4: parsing `"[python]\n:linenos:\ndef f():\n    pass"` and rendering
the resulting CustomDirective yields the declaration line
`.. note:: python`, one indented value-less `:linenos:` line, one blank
line, and the two body lines reindented by the fixed three-space
indent. -/
theorem parse_then_generate_python_directive :
    splitCh '\n' (generateCustomDirective (parseCustomDirective (strL "rst_note")
        (strL "[python]\n:linenos:\ndef f():\n    pass"))) =
      [strL ".. note:: python",
       INDENT ++ strL ":linenos:",
       [],
       INDENT ++ strL "def f():",
       INDENT ++ strL "    pass"] := by decide

/-- C3 (divergence witness): on `":linenos:\n[python]"` the bracketed
line follows an option line, yet `parseCustomDirective` still takes it as
the argument. -/
theorem later_bracketed_line_becomes_argument :
    (parseCustomDirective (strL "rst_x") (strL ":linenos:\n[python]")).argument =
      some (strL "python") := by decide

/-- C10: converting an empty input tree (no block elements, no images)
yields empty elements, images and warnings, with no error. -/
theorem convert_empty_tree :
    convertToRstModel (.ok (parseWordHtmlModel [] [])) =
      { images := [], warnings := [], elements := some [] } := rfl

/-- C8: every Heading element built by `parseHeadingElement` has a level
in [1, 6], whatever level the detection produced. -/
theorem heading_level_clamped (level : Int) (text : Str) (style : Option Str) :
    ∃ l : Int, parseHeadingElement level text style = .heading l text style ∧
      1 ≤ l ∧ l ≤ 6 := by
  refine ⟨clampHeadingLevel level, rfl, ?_, ?_⟩ <;>
    simp [clampHeadingLevel]

/-- C1 (counterexample): for the one-column table whose only cell is
20 characters, a space, and 20 more characters, the computed width is 40
but the spec's wrap-first formula demands 20. -/
theorem raw_width_refutes_wrapped_claim :
    ¬ specClaimedWidths
        [{ cells := [{ content := strL "aaaaaaaaaaaaaaaaaaaa bbbbbbbbbbbbbbbbbbbb" }] }] := by
  decide

/-- C5: reconstructing from five single-item lists of one type at indent
levels [0,0,1,1,0] gives a single tree: three root items, the second
carrying a nested two-item list, the first and third carrying none. -/
theorem list_reconstruction_0_0_1_1_0 (t : ListType) (c1 c2 c3 c4 c5 : Str)
    (h1 h2 h3 h4 h5 : Str) :
    postProcessElements
        [.list (.mk t [.mk c1 none (some 0)] h1),
         .list (.mk t [.mk c2 none (some 0)] h2),
         .list (.mk t [.mk c3 none (some 1)] h3),
         .list (.mk t [.mk c4 none (some 1)] h4),
         .list (.mk t [.mk c5 none (some 0)] h5)] =
      [.list (.mk t
        [.mk c1 none none,
         .mk c2 (some (.mk t [.mk c3 none none, .mk c4 none none] [])) none,
         .mk c5 none none] h1)] := by
  cases t <;> rfl

/-- C6: a Table immediately preceded by a paragraph reading
`"Table 1: Sales"` ends up with tableNumber `"1"` and caption `"Sales"`,
and the caption paragraph is gone from the output sequence. -/
theorem table_caption_association (style : Option Str) (d : TableData) :
    postProcessElements [.paragraph (strL "Table 1: Sales") style false, .table d] =
      [.table { d with options := { d.options with
        caption := some (strL "Sales")
        tableNumber := some (strL "1")
        name := some (strL "table-1") } }] := by
  have hstart : strStarts (lowerStr (strL "Table 1: Sales")) (strL "table ") = true := by decide
  have hcap : parseCaption (trimStr (strL "Table 1: Sales")) =
      some ⟨strL "Table", strL "1", strL "Sales", strL "Table 1: Sales"⟩ := by decide
  simp only [postProcessElements, List.foldl]
  have hpara : ppStep [] (.paragraph (strL "Table 1: Sales") style false) =
      [.paragraph (strL "Table 1: Sales") style false] := by
    simp [ppStep]
  rw [hpara]
  simp +decide [ppStep, hstart, hcap]

/-- C7: the heading underline has exactly the text's character count, and
a level-1 heading receives an identical overline exactly when the
overline option is enabled. -/
theorem heading_underline_exact (level : Nat) (text : Str) (ov : Bool)
    (_h : 1 ≤ level) :
    ∃ u : Str, u.length = getTextWidth text ∧
      formatHeadingLines level text ov =
        (if level = 1 ∧ ov = true then [u, text, u] else [text, u]) := by
  refine ⟨List.replicate (getTextWidth text) (HEADING_CHARS.getD (min (level - 1) 5) ' '),
    by simp, ?_⟩
  unfold formatHeadingLines
  by_cases h1 : level = 1 <;> by_cases h2 : ov = true <;>
    simp [h1, h2, HEADING_CHARS]

/-- Witness for C7 at a concrete level-1 heading with the overline
option enabled. -/
theorem heading_underline_exact_witness :
    1 ≤ 1 ∧
      (∃ u : Str, u.length = getTextWidth (strL "Title") ∧
        formatHeadingLines 1 (strL "Title") true =
          (if 1 = 1 ∧ true = true then [u, strL "Title", u] else [strL "Title", u])) :=
  ⟨by decide, heading_underline_exact 1 (strL "Title") true (by decide)⟩

/-- C2: for any 2-column table of a header row and one ordinary row,
the computed column widths are some pair `[w0, w1]`; the emitted lines
are a `-` top border, the header row's lines, a `=` separator, the second
row's lines, and a closing `-` separator; every emitted line has the same
total length `w0 + w1 + 7`; and the separators consist of `+` with `=`
(after the header) or `-` (elsewhere). -/
theorem grid_table_two_by_two (r1 r2 : TableRow) (h1 : r1.cells.length = 2)
    (h2 : r2.cells.length = 2) (hh : r1.isHeader = true) (hnh : r2.isHeader = false)
    (hasHeader : Bool) :
    ∃ w0 w1 : Nat,
      calculateColumnWidths [r1, r2] = [w0, w1] ∧
      generateGridTableLines [r1, r2] hasHeader =
        generateSeparator [w0, w1] '-' ::
          (generateRowLines r1 [w0, w1] 2 ++
            generateSeparator [w0, w1] '=' ::
              (generateRowLines r2 [w0, w1] 2 ++ [generateSeparator [w0, w1] '-'])) ∧
      (∀ l ∈ generateGridTableLines [r1, r2] hasHeader, l.length = w0 + w1 + 7) ∧
      (∀ ch ∈ generateSeparator [w0, w1] '=', ch = '+' ∨ ch = '=') ∧
      (∀ ch ∈ generateSeparator [w0, w1] '-', ch = '+' ∨ ch = '-') := by
  have hlen : (calculateColumnWidths [r1, r2]).length = 2 := by
    rw [calculateColumnWidths, if_neg (by simp)]
    simp only [List.map_cons, List.map_nil, natListMax, h1, h2]
    rw [List.length_map, foldl_updateWidths_length]
    rfl
  obtain ⟨w0, w1, hW⟩ := List.length_eq_two.mp hlen
  have hw0 : w0 = min (max 3 (colRawMax [r1, r2] 0)) 40 := by
    have hv := calculateColumnWidths_getElem? [r1, r2] 0 (by omega)
    rw [hW] at hv
    simpa using hv
  have hw1 : w1 = min (max 3 (colRawMax [r1, r2] 1)) 40 := by
    have hv := calculateColumnWidths_getElem? [r1, r2] 1 (by omega)
    rw [hW] at hv
    simpa using hv
  have hge0 : 3 ≤ w0 := by rw [hw0]; omega
  have hge1 : 3 ≤ w1 := by rw [hw1]; omega
  have hstruct : generateGridTableLines [r1, r2] hasHeader =
      generateSeparator [w0, w1] '-' ::
        (generateRowLines r1 [w0, w1] 2 ++
          generateSeparator [w0, w1] '=' ::
            (generateRowLines r2 [w0, w1] 2 ++ [generateSeparator [w0, w1] '-'])) := by
    unfold generateGridTableLines
    rw [hW]
    simp [gridRowsLoop, hh, hnh]
  refine ⟨w0, w1, hW, hstruct, ?_, generateSeparator_mem [w0, w1] '=',
    generateSeparator_mem [w0, w1] '-'⟩
  intro l hl
  rw [hstruct] at hl
  simp only [List.mem_cons, List.mem_append, List.mem_singleton, List.not_mem_nil,
    or_false] at hl
  rcases hl with rfl | h | rfl | h | rfl
  · exact generateSeparator_pair_length w0 w1 '-'
  · exact generateRowLines_pair_length r1 w0 w1 (by omega) (by omega) l h
  · exact generateSeparator_pair_length w0 w1 '='
  · exact generateRowLines_pair_length r2 w0 w1 (by omega) (by omega) l h
  · exact generateSeparator_pair_length w0 w1 '-'

/-- C2 (witness): the two-by-two grid-table property at a concrete
header/body table. -/
theorem grid_table_two_by_two_witness :
    ∃ w0 w1 : Nat,
      calculateColumnWidths [sampleHeaderRow, sampleBodyRow] = [w0, w1] ∧
      generateGridTableLines [sampleHeaderRow, sampleBodyRow] false =
        generateSeparator [w0, w1] '-' ::
          (generateRowLines sampleHeaderRow [w0, w1] 2 ++
            generateSeparator [w0, w1] '=' ::
              (generateRowLines sampleBodyRow [w0, w1] 2 ++ [generateSeparator [w0, w1] '-'])) ∧
      (∀ l ∈ generateGridTableLines [sampleHeaderRow, sampleBodyRow] false,
        l.length = w0 + w1 + 7) ∧
      (∀ ch ∈ generateSeparator [w0, w1] '=', ch = '+' ∨ ch = '=') ∧
      (∀ ch ∈ generateSeparator [w0, w1] '-', ch = '+' ∨ ch = '-') :=
  grid_table_two_by_two sampleHeaderRow sampleBodyRow rfl rfl rfl rfl false

/-- C1 (amended): every per-column width equals
`max(minWidth=3, largest raw line length across the column's cells)`
capped at `maxWidth=40`, where a cell's raw width is its longest
`\n`-separated line (no word-wrapping is involved). -/
theorem column_width_from_raw_lines (rows : List TableRow) (c : Nat)
    (h : c < (calculateColumnWidths rows).length) :
    (calculateColumnWidths rows).get ⟨c, h⟩ = min (max 3 (colRawMax rows c)) 40 :=
  calculateColumnWidths_get rows c h

/-- C1 (witness): the raw-width formula at a concrete one-column table. -/
theorem column_width_from_raw_lines_witness :
    0 < (calculateColumnWidths [sampleBodyRow]).length ∧
      (calculateColumnWidths [sampleBodyRow]).get ⟨0, by decide⟩ =
        min (max 3 (colRawMax [sampleBodyRow] 0)) 40 :=
  ⟨by decide, column_width_from_raw_lines [sampleBodyRow] 0 (by decide)⟩

/-- C9: when every input list element has the parser's shape (only the
leading item may carry the transient `indentLevel` hint), no list item at
any nesting depth of the post-processed sequence carries `indentLevel`. -/
theorem no_indent_level_after_postprocess (elements : List DocumentElement)
    (hin : elemListsOk inputListOk elements = true) :
    elemListsOk listNoIndent (postProcessElements elements) = true := by
  rw [elemListsOk_iff]
  exact foldl_ppStep_noIndent elements [] ((elemListsOk_iff _ _).mp hin)
    (fun l hl => absurd hl (List.not_mem_nil _))

/-- C9 (witness): the indent-erasure invariant at a concrete two-item
flat sequence. -/
theorem no_indent_level_after_postprocess_witness :
    elemListsOk inputListOk sampleListElements = true ∧
      elemListsOk listNoIndent (postProcessElements sampleListElements) = true :=
  ⟨by decide, no_indent_level_after_postprocess sampleListElements (by decide)⟩
